import Mathlib

/-!
Verification development for the WordPress Kubernetes charm
(`src/charm.py` of mthaddon/wordpress-k8s-operator).

The charm's persisted state, leader-replicated data and event handlers are
shallowly embedded as Lean definitions; Python strings become `String`,
`None`-able values become `Option String`, and the `StoredState` install set
becomes a `Finset` over the four flags that ever enter it.  Event dispatch is
modelled by a fuel-indexed interpreter `run`; nested `emit()` calls consume
one unit of fuel, so every theorem quantified over all fuel values covers the
real (finite) dispatch chains.
-/

namespace WordpressCharm

/-! ## Python string helpers -/

/-- Python truthiness of an optional string: `None` and `""` are falsy. -/
def isFalsy : Option String → Bool
  | none => true
  | some s => s = ""

/-- `c[key] or None` as used when seeding `StoredState` from config. -/
def strOrNone (s : String) : Option String :=
  if s = "" then none else some s

/-- Python whitespace characters, as recognised by `str.rstrip()`. -/
def pyIsSpace (c : Char) : Bool :=
  c = ' ' || c = '\t' || c = '\n' || c = '\x0d' || c = '\x0b' || c = '\x0c'

/-- `str.rstrip()` on the underlying character list. -/
def rstripL (l : List Char) : List Char :=
  (l.reverse.dropWhile pyIsSpace).reverse

/-- `str.rstrip()`. -/
def rstrip (s : String) : String :=
  String.mk (rstripL s.data)

/-- Python `str.split(sep)` for a one-character separator: keeps empty
fields, `"".split(sep) == [""]`. -/
def splitChar (sep : Char) : List Char → List (List Char)
  | [] => [[]]
  | c :: cs =>
    if c = sep then [] :: splitChar sep cs
    else
      match splitChar sep cs with
      | [] => [[c]]
      | g :: gs => (c :: g) :: gs

theorem splitChar_ne_nil (sep : Char) (l : List Char) : splitChar sep l ≠ [] := by
  cases l with
  | nil => simp [splitChar]
  | cons c cs =>
    simp only [splitChar]
    split
    · simp
    · split <;> simp

/-- Splitting distributes over a separator occurrence, exactly as Python's
`(a + sep + b).split(sep) == a.split(sep) + b.split(sep)`. -/
theorem splitChar_append (sep : Char) (a b : List Char) :
    splitChar sep (a ++ sep :: b) = splitChar sep a ++ splitChar sep b := by
  induction a with
  | nil => simp [splitChar]
  | cons c cs ih =>
    by_cases hc : c = sep
    · subst hc
      simp [splitChar, ih]
    · simp only [List.cons_append, splitChar, hc, if_false, ih]
      cases h : splitChar sep cs with
      | nil => exact absurd h (splitChar_ne_nil sep cs)
      | cons g gs => simp [ih, h]

/-! ## The hostname pattern of `is_valid_config`

`src/charm.py:517` compiles `^([a-z0-9]+(-[a-z0-9]+)*\.)+[a-z]{2,}$` and
checks each entry with `re.match`.  The pattern is equivalent to: the string
splits on `'.'` into at least two parts, every part before the last is a
DNS label (`[a-z0-9]+` segments joined by single hyphens) and the last part
is two or more lowercase letters.  Python's `re.match` with a final `$` also
accepts one trailing newline. -/

/-- `[a-z0-9]`. -/
def isLowerAlnum (c : Char) : Bool :=
  ('a' ≤ c && c ≤ 'z') || ('0' ≤ c && c ≤ '9')

/-- `[a-z]`. -/
def isLowerAlpha (c : Char) : Bool :=
  'a' ≤ c && c ≤ 'z'

/-- One `[a-z0-9]+` segment of a label. -/
def isLabelSeg (l : List Char) : Bool :=
  !l.isEmpty && l.all isLowerAlnum

/-- `[a-z0-9]+(-[a-z0-9]+)*`: nonempty lower-alphanumeric runs joined by
single hyphens. -/
def isLabel (l : List Char) : Bool :=
  (splitChar '-' l).all isLabelSeg

/-- `[a-z]{2,}`. -/
def isTld (l : List Char) : Bool :=
  decide (2 ≤ l.length) && l.all isLowerAlpha

/-- The anchored body `^([a-z0-9]+(-[a-z0-9]+)*\.)+[a-z]{2,}$` against the
whole character list. -/
def hostPatternCore (l : List Char) : Bool :=
  let parts := splitChar '.' l
  decide (2 ≤ parts.length) && parts.dropLast.all isLabel && isTld (parts.getLastD [])

/-- Python `re.match` of the hostname pattern: the trailing `$` also matches
just before a single newline at the very end of the string. -/
def reMatchHostL (l : List Char) : Bool :=
  hostPatternCore l || (l.getLast? = some '\n' && hostPatternCore l.dropLast)

/-- The `re.match` check applied to an entry string. -/
def reMatchHost (s : String) : Bool :=
  reMatchHostL s.data

/-- `juju_setting_to_list` (src/charm.py:22-24) with its default separator:
Python `config_string.split(" ")`, splitting on the single space character. -/
def juju_setting_to_list (config_string : String) : List String :=
  (splitChar ' ' config_string.data).map String.mk

/-- The `additional_hostnames` clause of `is_valid_config`
(src/charm.py:515-523): vacuously fine when the setting is empty, otherwise
every space-separated entry must match the hostname pattern. -/
def additionalHostnamesCheckL (l : List Char) : Bool :=
  l.isEmpty || (splitChar ' ' l).all reMatchHostL

/-- String-level wrapper for the `additional_hostnames` clause. -/
def additionalHostnamesCheck (ah : String) : Bool :=
  additionalHostnamesCheckL ah.data

example : reMatchHost "blog.example.com" = true := by decide
example : reMatchHost "a-b.example.io" = true := by decide
example : reMatchHost "Blog.Example.com" = false := by decide
example : reMatchHost "example" = false := by decide
example : reMatchHost "a.com\n" = true := by decide
example : reMatchHost "a.com\n\n" = false := by decide
example : reMatchHost "a--b.com" = false := by decide
example : reMatchHost "a-b-c.de" = true := by decide
example : reMatchHost "a.2c" = false := by decide
example : additionalHostnamesCheck "a.com\n b.com" = true := by decide
example : additionalHostnamesCheck "a.com\tb.com" = false := by decide
example : additionalHostnamesCheck " a.com" = false := by decide
example : juju_setting_to_list "a b" = ["a", "b"] := by decide

/-! ## Data model -/

/-- The string tags that ever enter `self.state.install_state`. -/
inductive Flag
  | leader
  | db
  | ingress
  | attempted
deriving DecidableEq, Repr

/-- The charm configuration keys the embedded handlers read.  All values are
plain strings; an unset option is the empty string (falsy). -/
structure Config where
  db_host : String := ""
  db_name : String := ""
  db_user : String := ""
  db_password : String := ""
  initial_settings : String := ""
  image : String := ""
  additional_hostnames : String := ""
deriving DecidableEq, Repr

/-- `self.state` (`StoredState`), as seeded by `set_default`
(src/charm.py:110-119) plus the `attempted_install` attribute first written
at src/charm.py:302. -/
structure CharmState where
  installed_successfully : Bool
  install_state : Finset Flag
  has_db_relation : Bool
  has_ingress_relation : Bool
  db_host : Option String
  db_name : Option String
  db_user : Option String
  db_password : Option String
  attempted_install : Bool
deriving DecidableEq

/-- `self.leader_data` (`LeadershipSettings`).

Modelled from the spec: `leadership.py` is not under `src/`; per the spec a
missing key reads as an empty/falsy value and the store is leader-written,
replicated to every unit.  A missing `installed` flag is `false`, missing
credential fields are `none`, a missing secret is `none`, and a missing
`initial_password` is `""`. -/
structure LeaderData where
  installed : Bool := false
  db_host : Option String := none
  db_name : Option String := none
  db_user : Option String := none
  db_password : Option String := none
  secrets : String → Option String := fun _ => none
  initial_password : String := ""

/-- The whole persisted world of one unit: stored state, the replicated
leader data it observes, and a counter drawing fresh random strings. -/
structure Sys where
  st : CharmState
  ld : LeaderData
  seed : Nat

/-- Per-dispatch environment: leadership of this unit, the declared
configuration, the outcome of the external HTTP bootstrap
(`Wordpress.first_install`, modelled from the spec as an oracle since
`wordpress.py` is not under `src/`), and the random-string source
`gen len seed` standing for `password_generator(len)`. -/
structure Env where
  isLeader : Bool
  firstInstallOk : Bool
  cfg : Config
  gen : Nat → Nat → String

/-- Modelled from the spec: `WORDPRESS_SECRETS` is defined in
`wordpress.py` (not under `src/`) and names the WordPress auth keys and
salts. -/
def WORDPRESS_SECRETS : List String :=
  ["AUTH_KEY", "SECURE_AUTH_KEY", "LOGGED_IN_KEY", "NONCE_KEY",
   "AUTH_SALT", "SECURE_AUTH_SALT", "LOGGED_IN_SALT", "NONCE_SALT"]

/-- Modelled from the spec: the default length of `password_generator()`
(`wordpress.py` is not under `src/`); its exact value is immaterial to the
claims. -/
def PASSWORD_GENERATOR_DEFAULT_LENGTH : Nat := 24

/-- `first_time_ready = {"leader", "db", "ingress", "leader"}`
(src/charm.py:282, duplicate entry as in the source). -/
def first_time_ready : Finset Flag :=
  {Flag.leader, Flag.db, Flag.ingress, Flag.leader}

/-- `install_running = {"attempted", "ingress", "db", "leader"}`
(src/charm.py:283). -/
def install_running : Finset Flag :=
  {Flag.attempted, Flag.ingress, Flag.db, Flag.leader}

/-- `self.state` as seeded at src/charm.py:110-119: flags start false, the
install set empty, and each credential field is `config[k] or None`. -/
def initState (c : Config) : CharmState where
  installed_successfully := false
  install_state := ∅
  has_db_relation := false
  has_ingress_relation := false
  db_host := strOrNone c.db_host
  db_name := strOrNone c.db_name
  db_user := strOrNone c.db_user
  db_password := strOrNone c.db_password
  attempted_install := false

/-- A unit at first activation: defaulted stored state, empty leader store. -/
def initSys (c : Config) : Sys where
  st := initState c
  ld := {}
  seed := 0

/-! ## Leader data accessors and secret generation -/

/-- `self._db_config` (src/charm.py:192-209): the leader reads the four
credential fields from stored state, a follower from the replicated leader
data. -/
def dbConfigValues (env : Env) (s : Sys) : List (Option String) :=
  if env.isLeader then
    [s.st.db_host, s.st.db_name, s.st.db_user, s.st.db_password]
  else
    [s.ld.db_host, s.ld.db_name, s.ld.db_user, s.ld.db_password]

/-- `self._wordpress_secrets` (src/charm.py:543-550): read every secret name
from leader data, missing names read as `None`. -/
def wordpressSecretsValues (s : Sys) : List (Option String) :=
  WORDPRESS_SECRETS.map s.ld.secrets

/-- `self._generate_wordpress_secrets` (src/charm.py:526-541): for each name
with a missing or falsy stored value store a fresh
`password_generator(64)` result, then record the (now present) stored value
in the returned map. -/
def generate_wordpress_secrets (env : Env) : List String → Sys → Sys × List (String × String)
  | [], s => (s, [])
  | secret :: rest, s =>
    let s1 :=
      if isFalsy (s.ld.secrets secret) then
        { s with
          ld := { s.ld with
                  secrets := fun k => if k = secret then some (env.gen 64 s.seed)
                             else s.ld.secrets k }
          seed := s.seed + 1 }
      else s
    let r := generate_wordpress_secrets env rest s1
    (r.1, (secret, (s1.ld.secrets secret).getD "") :: r.2)

/-- `self._get_initial_password` (src/charm.py:561-571): a falsy stored
password is regenerated by the leader; a follower just returns the falsy
value it read. -/
def get_initial_password (env : Env) (s : Sys) : Sys × String :=
  let initial_password := s.ld.initial_password
  if initial_password = "" then
    if env.isLeader then
      let pw := env.gen PASSWORD_GENERATOR_DEFAULT_LENGTH s.seed
      ({ s with ld := { s.ld with initial_password := pw }, seed := s.seed + 1 }, pw)
    else (s, initial_password)
  else (s, initial_password)

/-- Result surface of a charm action: `event.set_results` or `event.fail`. -/
inductive ActionResult
  | results (password : String)
  | fail (message : String)
deriving DecidableEq, Repr

/-- `self._on_get_initial_password_action` (src/charm.py:573-579). -/
def on_get_initial_password_action (env : Env) (s : Sys) : Sys × ActionResult :=
  let r := get_initial_password env s
  if r.2 ≠ "" then (r.1, .results r.2) else (r.1, .fail "Initial password has not been set yet.")

/-! ## The validator -/

/-- `config[k]` for the keys `is_valid_config` ever looks up. -/
def configGet (c : Config) : String → String
  | "image" => c.image
  | "db_host" => c.db_host
  | "db_name" => c.db_name
  | "db_user" => c.db_user
  | "db_password" => c.db_password
  | _ => ""

/-- The `want` list of `is_valid_config` (src/charm.py:500-504): `image`
always, plus the four db keys when the resolved credentials are not all
truthy. -/
def requiredWant (env : Env) (s : Sys) : List String :=
  if (dbConfigValues env s).all (fun x => !isFalsy x) then ["image"]
  else ["image", "db_host", "db_name", "db_user", "db_password"]

/-- `missing = [k for k in want if config[k].rstrip() == ""]`
(src/charm.py:508). -/
def missingRequired (env : Env) (s : Sys) : List String :=
  (requiredWant env s).filter (fun k => rstrip (configGet env.cfg k) = "")

/-- `self.is_valid_config` (src/charm.py:479-524), with the source's
sequential `is_valid = False` assignments kept as a chain of flag updates so
that every check is evaluated and any one failure forces the result to
`false`. -/
def is_valid_config (env : Env) (s : Sys) : Bool :=
  let config := env.cfg
  let is_valid := true
  let is_valid := if s.st.installed_successfully = false then false else is_valid
  let is_valid := if config.initial_settings = "" then false else is_valid
  let db_state := dbConfigValues env s
  let is_valid := if !db_state.all (fun x => !isFalsy x) then false else is_valid
  let is_valid := if !(missingRequired env s).isEmpty then false else is_valid
  let is_valid :=
    if config.additional_hostnames ≠ "" then
      if !(juju_setting_to_list config.additional_hostnames).all reMatchHost then false
      else is_valid
    else is_valid
  is_valid

/-- What `on_config_changed` did with the validity guard. -/
inductive ConfigChangedOutcome
  | stopped
  | applied
deriving DecidableEq, Repr

/-- The guard of `self.on_config_changed` (src/charm.py:343-349): an invalid
configuration returns before any workload work; otherwise the handler
proceeds to the workload-apply section. -/
def on_config_changed_outcome (env : Env) (s : Sys) : ConfigChangedOutcome :=
  if is_valid_config env s then .applied else .stopped

/-! ## The static database configuration handler -/

/-- `any(db_config.values())` for
`db_config = {k: v or None for (k, v) in config.items() if k.startswith("db_")}`
(src/charm.py:382-383). -/
def any_db_config (c : Config) : Bool :=
  (strOrNone c.db_host).isSome || (strOrNone c.db_name).isSome ||
  (strOrNone c.db_user).isSome || (strOrNone c.db_password).isSome

/-- `db_differences` as actually computed at src/charm.py:384-386.

In the source, `current_db_data` is the set of the four stored credential
values and `new_db_data = {db_config.values()}` is a one-element set holding
the `dict_values` object itself (not the four configured values).  No stored
credential value equals that `dict_values` object, so
`current_db_data.difference(new_db_data)` is always the whole (never empty)
`current_db_data`; that set is embedded here. -/
def db_differences (st : CharmState) : Finset (Option String) :=
  {st.db_host, st.db_name, st.db_user, st.db_password}

/-- Whether `self.on_database_config_changed` (src/charm.py:378-388) emits
the internal `wordpress_static_database_changed` signal. -/
def on_database_config_changed_emits (env : Env) (s : Sys) : Bool :=
  !s.st.has_db_relation && any_db_config env.cfg && decide (db_differences s.st ≠ ∅)

/-! ## Event dispatch

`run` interprets one handler invocation.  Nested `.emit()` calls spend one
unit of fuel; with fuel `0` a call does nothing, so any theorem proved for
every fuel value covers the real, finitely nested dispatch chains.  The
second component of the result counts how often
`self.on.wordpress_initial_setup.emit()` (src/charm.py:305) ran. -/

/-- The external events Juju can deliver to this charm. -/
inductive Event
  | configChanged
  | pebbleReady
  | dbRelationCreated
  | dbRelationBroken
  | databaseChanged (host database user password : Option String)
  | ingressRelationCreated
  | ingressRelationChanged
  | ingressRelationBroken
  | leaderElected
  | getInitialPasswordAction
deriving DecidableEq

/-- One handler invocation.  `reg` records whether the uninstalled-phase
observers were registered at dispatch start (src/charm.py:131-133). -/
inductive Call
  | event (e : Event)
  | chain (reg : Bool)
  | dbConfigChanged (reg : Bool)
  | databaseChanged (reg : Bool) (host database user password : Option String)
  | dbRelCreated (reg : Bool)
  | dbRelBroken (reg : Bool)
  | ingressChanged (reg : Bool)
  | leaderElected (reg : Bool)
  | uninitialised (reg : Bool)
  | initialSetup (reg : Bool)
deriving DecidableEq

/-- src/charm.py:432-443: `on_database_changed` overwrites the four stored
credential fields, a leader replicates them into leader data, and
`has_db_relation` is set. -/
def dbChangedUpdate (env : Env) (h d u p : Option String) (s : Sys) : Sys :=
  let st := { s.st with db_host := h, db_name := d, db_user := u, db_password := p }
  let ld :=
    if env.isLeader then
      { s.ld with db_host := h, db_name := d, db_user := u, db_password := p }
    else s.ld
  let st := { st with
    has_db_relation := true
    install_state := insert Flag.db st.install_state }
  { s with st := st, ld := ld }

/-- src/charm.py:398-402: `on_db_relation_created` nulls the credential
fields and flips `has_db_relation` on. -/
def dbRelCreatedUpdate (s : Sys) : Sys :=
  { s with st := { s.st with
      db_host := none
      db_name := none
      db_user := none
      db_password := none
      has_db_relation := true } }

/-- src/charm.py:412-416: `on_db_relation_broken` nulls the credential
fields and flips `has_db_relation` off. -/
def dbRelBrokenUpdate (s : Sys) : Sys :=
  { s with st := { s.st with
      db_host := none
      db_name := none
      db_user := none
      db_password := none
      has_db_relation := false } }

/-- src/charm.py:457-458: `on_ingress_relation_changed`. -/
def ingressChangedUpdate (s : Sys) : Sys :=
  { s with st := { s.st with
      has_ingress_relation := true
      install_state := insert Flag.ingress s.st.install_state } }

/-- src/charm.py:447-453: `on_ingress_relation_broken` would discard the
`"ingress"` flag — but src/charm.py:93-133 registers no observer for
`ingress_relation_broken`, so the method is dead code: `run` dispatches it
from nowhere and a real ingress-relation-broken event mutates no stored
state.  The update is kept here only to document the unreachable method. -/
def ingressBrokenUpdate (s : Sys) : Sys :=
  { s with st := { s.st with
      has_ingress_relation := false
      install_state := s.st.install_state.erase Flag.ingress } }

/-- src/charm.py:468-471: a leader regenerates any missing WordPress secret
and marks the `"leader"` prerequisite; a follower only logs. -/
def leaderElectedUpdate (env : Env) (s : Sys) : Sys :=
  if env.isLeader then
    let s1 :=
      if !(wordpressSecretsValues s).all (fun v => !isFalsy v) then
        (generate_wordpress_secrets env WORDPRESS_SECRETS s).1
      else s
    { s1 with st := { s1.st with install_state := insert Flag.leader s1.st.install_state } }
  else s

/-- src/charm.py:269-271: a follower overwrites its `installed_successfully`
flag with the replicated `installed` value (`setdefault` leaves the store
unchanged when the key is present; an absent key is the default `false`). -/
def syncFromLeader (env : Env) (s : Sys) : Sys :=
  if env.isLeader then s
  else { s with st := { s.st with installed_successfully := s.ld.installed } }

/-- src/charm.py:302-303: mark the install attempt in stored state. -/
def markAttempted (s : Sys) : Sys :=
  { s with st := { s.st with
      attempted_install := true
      install_state := insert Flag.attempted s.st.install_state } }

/-- src/charm.py:329-340 (after the line-326 emit): draw the initial
password, record the bootstrap outcome in `installed_successfully`, and on
success replicate `installed = True` to leader data. -/
def installResult (env : Env) (s : Sys) : Sys :=
  let s2 := (get_initial_password env s).1
  let s3 := { s2 with st := { s2.st with installed_successfully := env.firstInstallOk } }
  if env.firstInstallOk then
    { s3 with
      ld := { s3.ld with installed := true }
      st := { s3.st with installed_successfully := true } }
  else s3

def run (env : Env) : Nat → Call → Sys → Sys × Nat
  | 0, _, s => (s, 0)
  | fuel + 1, c, s =>
    match c with
    | .event e =>
      -- src/charm.py:131-133: the uninstalled-phase observers are only
      -- registered when installed_successfully is false at dispatch start.
      let reg := !s.st.installed_successfully
      match e with
      | .configChanged => run env fuel (.chain reg) s
      | .pebbleReady => (s, 0)   -- only on_config_changed: no stored-state writes
      | .dbRelationCreated => run env fuel (.dbRelCreated reg) s
      | .dbRelationBroken => run env fuel (.dbRelBroken reg) s
      | .databaseChanged h d u p => run env fuel (.databaseChanged reg h d u p) s
      | .ingressRelationCreated => run env fuel (.ingressChanged reg) s
      | .ingressRelationChanged => run env fuel (.ingressChanged reg) s
      | .ingressRelationBroken =>
        -- src/charm.py:93-133 registers no observer for ingress_relation_broken
        -- (only changed and created, lines 125-126), so the event invokes no
        -- charm handler and the stored state is untouched.
        (s, 0)
      | .leaderElected => run env fuel (.leaderElected reg) s
      | .getInitialPasswordAction => ((on_get_initial_password_action env s).1, 0)
    | .chain reg =>
      -- config_changed observers in registration order (src/charm.py:93-132):
      -- on_config_changed writes no stored state or leader data, then
      -- on_database_config_changed, then on_wordpress_uninitialised when
      -- registered.
      let r1 := run env fuel (.dbConfigChanged reg) s
      if reg then
        let r2 := run env fuel (.uninitialised reg) r1.1
        (r2.1, r1.2 + r2.2)
      else r1
    | .dbConfigChanged reg =>
      -- on_database_config_changed (src/charm.py:378-388)
      if on_database_config_changed_emits env s then
        run env fuel
          (.databaseChanged reg (some env.cfg.db_host) (some env.cfg.db_name)
            (some env.cfg.db_user) (some env.cfg.db_password)) s
      else (s, 0)
    | .databaseChanged reg h d u p =>
      -- on_database_changed (src/charm.py:419-445)
      run env fuel (.chain reg) (dbChangedUpdate env h d u p s)
    | .dbRelCreated reg =>
      -- on_db_relation_created (src/charm.py:390-403)
      run env fuel (.chain reg) (dbRelCreatedUpdate s)
    | .dbRelBroken reg =>
      -- on_db_relation_broken (src/charm.py:405-417)
      run env fuel (.chain reg) (dbRelBrokenUpdate s)
    | .ingressChanged reg =>
      -- on_ingress_relation_changed (src/charm.py:455-459)
      run env fuel (.chain reg) (ingressChangedUpdate s)
    | .leaderElected reg =>
      -- on_leader_elected (src/charm.py:461-477)
      run env fuel (.chain reg) (leaderElectedUpdate env s)
    | .uninitialised reg =>
      -- on_wordpress_uninitialised (src/charm.py:248-305)
      let s := syncFromLeader env s
      if s.st.installed_successfully then (s, 0)
      else if s.st.install_state = install_running then (s, 0)
      else if s.st.install_state = first_time_ready then
        let s := markAttempted s
        if reg then
          let r := run env fuel (.initialSetup reg) s
          (r.1, r.2 + 1)
        else (s, 1)
      else (s, 0)
    | .initialSetup reg =>
      -- on_wordpress_initial_setup (src/charm.py:307-341); the container
      -- pushes, layer declaration and service starts touch no stored state.
      let r1 := run env fuel (.chain reg) s
      let s' := installResult env r1.1
      if env.firstInstallOk then
        let r2 := run env fuel (.chain reg) s'
        (r2.1, r1.2 + r2.2)
      else (s', r1.2)

/-- A trace of external events: fuel for the dispatch, the environment Juju
presents (leadership, configuration, oracles), and the event itself. -/
def runEvents : List (Nat × Env × Event) → Sys → Sys
  | [], s => s
  | (fuel, env, e) :: rest, s => runEvents rest (run env fuel (.event e) s).1

/-- The states a single unit can reach from first activation. -/
inductive Reachable : Sys → Prop
  | init (c : Config) : Reachable (initSys c)
  | step (fuel : Nat) (env : Env) (e : Event) {s : Sys} :
      Reachable s → Reachable (run env fuel (.event e) s).1

/-! ## Small preservation lemmas -/

theorem generate_wordpress_secrets_st (env : Env) (ns : List String) (s : Sys) :
    (generate_wordpress_secrets env ns s).1.st = s.st := by
  induction ns generalizing s with
  | nil => rfl
  | cons n rest ih =>
    simp only [generate_wordpress_secrets]
    split <;> simp [ih]

theorem generate_wordpress_secrets_installed (env : Env) (ns : List String) (s : Sys) :
    (generate_wordpress_secrets env ns s).1.ld.installed = s.ld.installed := by
  induction ns generalizing s with
  | nil => rfl
  | cons n rest ih =>
    simp only [generate_wordpress_secrets]
    split <;> simp [ih]

theorem get_initial_password_st (env : Env) (s : Sys) :
    (get_initial_password env s).1.st = s.st := by
  simp only [get_initial_password]
  split
  · split <;> rfl
  · rfl

theorem get_initial_password_installed (env : Env) (s : Sys) :
    (get_initial_password env s).1.ld.installed = s.ld.installed := by
  simp only [get_initial_password]
  split
  · split <;> rfl
  · rfl

theorem on_get_initial_password_action_st (env : Env) (s : Sys) :
    (on_get_initial_password_action env s).1.st = s.st := by
  simp only [on_get_initial_password_action]
  split <;> exact get_initial_password_st env s

theorem on_get_initial_password_action_installed (env : Env) (s : Sys) :
    (on_get_initial_password_action env s).1.ld.installed = s.ld.installed := by
  simp only [on_get_initial_password_action]
  split <;> exact get_initial_password_installed env s

theorem installResult_install_state (env : Env) (s : Sys) :
    (installResult env s).st.install_state = s.st.install_state := by
  simp only [installResult]
  split <;> simp [congrArg CharmState.install_state (get_initial_password_st env s)]

theorem syncFromLeader_install_state (env : Env) (s : Sys) :
    (syncFromLeader env s).st.install_state = s.st.install_state := by
  simp only [syncFromLeader]
  split <;> rfl

theorem leaderElectedUpdate_install_state (env : Env) (s : Sys) :
    s.st.install_state ⊆ (leaderElectedUpdate env s).st.install_state := by
  simp only [leaderElectedUpdate]
  split
  · split
    · show s.st.install_state ⊆
        insert Flag.leader (generate_wordpress_secrets env WORDPRESS_SECRETS s).1.st.install_state
      rw [generate_wordpress_secrets_st]
      exact Finset.subset_insert _ _
    · exact Finset.subset_insert _ _
  · exact Finset.Subset.refl _

/-! ## The install set only changes through `insert`: no dispatched call
removes anything (`on_ingress_relation_broken`, the one method that would,
is registered for no event) -/

theorem install_state_grows (env : Env) :
    ∀ fuel c s, s.st.install_state ⊆ (run env fuel c s).1.st.install_state := by
  intro fuel
  induction fuel with
  | zero =>
    intro c s
    exact Finset.Subset.refl _
  | succ fuel ih =>
    intro c s
    cases c with
    | event e =>
      cases e with
      | configChanged => exact ih (.chain _) s
      | pebbleReady => exact Finset.Subset.refl _
      | dbRelationCreated => exact ih (.dbRelCreated _) s
      | dbRelationBroken => exact ih (.dbRelBroken _) s
      | databaseChanged h d u p => exact ih (.databaseChanged _ h d u p) s
      | ingressRelationCreated => exact ih (.ingressChanged _) s
      | ingressRelationChanged => exact ih (.ingressChanged _) s
      | ingressRelationBroken => exact Finset.Subset.refl _
      | leaderElected => exact ih (.leaderElected _) s
      | getInitialPasswordAction =>
        show s.st.install_state ⊆ (on_get_initial_password_action env s).1.st.install_state
        rw [on_get_initial_password_action_st]
    | chain reg =>
      simp only [run]
      cases reg with
      | true =>
        have h1 := ih (.dbConfigChanged true) s
        have h2 := ih (.uninitialised true) (run env fuel (.dbConfigChanged true) s).1
        simpa using h1.trans h2
      | false =>
        simpa using ih (.dbConfigChanged false) s
    | dbConfigChanged reg =>
      simp only [run]
      by_cases hem : on_database_config_changed_emits env s = true
      · have h := ih (.databaseChanged reg (some env.cfg.db_host) (some env.cfg.db_name)
          (some env.cfg.db_user) (some env.cfg.db_password)) s
        simpa [hem] using h
      · simp [hem]
    | databaseChanged reg h d u p =>
      simp only [run]
      exact (Finset.subset_insert _ _).trans (ih (.chain reg) (dbChangedUpdate env h d u p s))
    | dbRelCreated reg =>
      simp only [run]
      exact ih (.chain reg) (dbRelCreatedUpdate s)
    | dbRelBroken reg =>
      simp only [run]
      exact ih (.chain reg) (dbRelBrokenUpdate s)
    | ingressChanged reg =>
      simp only [run]
      exact (Finset.subset_insert _ _).trans (ih (.chain reg) (ingressChangedUpdate s))
    | leaderElected reg =>
      simp only [run]
      exact (leaderElectedUpdate_install_state env s).trans
        (ih (.chain reg) (leaderElectedUpdate env s))
    | uninitialised reg =>
      simp only [run]
      split
      · rw [syncFromLeader_install_state]
      · split
        · rw [syncFromLeader_install_state]
        · split
          · have hmark : s.st.install_state ⊆
                (markAttempted (syncFromLeader env s)).st.install_state := by
              show s.st.install_state ⊆
                insert Flag.attempted (syncFromLeader env s).st.install_state
              rw [syncFromLeader_install_state]
              exact Finset.subset_insert _ _
            cases reg with
            | true =>
              simpa using hmark.trans
                (ih (.initialSetup true) (markAttempted (syncFromLeader env s)))
            | false => simpa using hmark
          · rw [syncFromLeader_install_state]
    | initialSetup reg =>
      simp only [run]
      have h1 := ih (.chain reg) s
      have hmid : (run env fuel (.chain reg) s).1.st.install_state ⊆
          (installResult env (run env fuel (.chain reg) s).1).st.install_state := by
        rw [installResult_install_state]
      by_cases hok : env.firstInstallOk = true
      · have h2 := ih (.chain reg) (installResult env (run env fuel (.chain reg) s).1)
        simpa [hok] using (h1.trans hmid).trans h2
      · simpa [hok] using h1.trans hmid

/-! ## The installed flag -/

/-- The unit-level invariant coupling the stored `installed_successfully`
flag to the replicated `installed` flag: whenever a unit has recorded a
successful install, the leader store has too.  (src/charm.py:329-340 sets
the two together; src/charm.py:271 copies the replicated flag back.) -/
def Inv (s : Sys) : Prop :=
  s.st.installed_successfully = true → s.ld.installed = true

/-- Which calls are `on_wordpress_initial_setup` (the only handler that
writes `installed_successfully` from an oracle rather than preserving it). -/
def Call.isSetup : Call → Bool
  | .initialSetup _ => true
  | _ => false

theorem installResult_Inv (env : Env) (s : Sys) : Inv (installResult env s) := by
  intro h
  by_cases hok : env.firstInstallOk = true
  · simp [installResult, hok]
  · simp [installResult, hok] at h

theorem leaderElectedUpdate_installed (env : Env) (s : Sys) :
    (leaderElectedUpdate env s).st.installed_successfully = s.st.installed_successfully := by
  simp only [leaderElectedUpdate]
  split
  · split
    · show (generate_wordpress_secrets env WORDPRESS_SECRETS s).1.st.installed_successfully =
        s.st.installed_successfully
      rw [generate_wordpress_secrets_st]
    · rfl
  · rfl

theorem leaderElectedUpdate_ld_installed (env : Env) (s : Sys) :
    (leaderElectedUpdate env s).ld.installed = s.ld.installed := by
  simp only [leaderElectedUpdate]
  split
  · split
    · show (generate_wordpress_secrets env WORDPRESS_SECRETS s).1.ld.installed = s.ld.installed
      rw [generate_wordpress_secrets_installed]
    · rfl
  · rfl

theorem dbChangedUpdate_ld_installed (env : Env) (h d u p : Option String) (s : Sys) :
    (dbChangedUpdate env h d u p s).ld.installed = s.ld.installed := by
  simp only [dbChangedUpdate]
  split <;> rfl

theorem run_Inv_mono (env : Env) :
    ∀ fuel c s, Inv s →
      Inv (run env fuel c s).1 ∧
      (c.isSetup = false → s.st.installed_successfully = true →
        (run env fuel c s).1.st.installed_successfully = true) := by
  intro fuel
  induction fuel with
  | zero => intro c s hInv; exact ⟨hInv, fun _ h => h⟩
  | succ fuel ih =>
    intro c s hInv
    cases c with
    | event e =>
      cases e with
      | configChanged =>
        simp only [run]
        exact ⟨(ih (.chain _) s hInv).1, fun _ hs => (ih (.chain _) s hInv).2 rfl hs⟩
      | pebbleReady =>
        simp only [run]
        exact ⟨hInv, fun _ hs => hs⟩
      | dbRelationCreated =>
        simp only [run]
        exact ⟨(ih (.dbRelCreated _) s hInv).1, fun _ hs => (ih (.dbRelCreated _) s hInv).2 rfl hs⟩
      | dbRelationBroken =>
        simp only [run]
        exact ⟨(ih (.dbRelBroken _) s hInv).1, fun _ hs => (ih (.dbRelBroken _) s hInv).2 rfl hs⟩
      | databaseChanged h d u p =>
        simp only [run]
        exact ⟨(ih (.databaseChanged _ h d u p) s hInv).1,
          fun _ hs => (ih (.databaseChanged _ h d u p) s hInv).2 rfl hs⟩
      | ingressRelationCreated =>
        simp only [run]
        exact ⟨(ih (.ingressChanged _) s hInv).1, fun _ hs => (ih (.ingressChanged _) s hInv).2 rfl hs⟩
      | ingressRelationChanged =>
        simp only [run]
        exact ⟨(ih (.ingressChanged _) s hInv).1, fun _ hs => (ih (.ingressChanged _) s hInv).2 rfl hs⟩
      | ingressRelationBroken =>
        simp only [run]
        exact ⟨hInv, fun _ hs => hs⟩
      | leaderElected =>
        simp only [run]
        exact ⟨(ih (.leaderElected _) s hInv).1, fun _ hs => (ih (.leaderElected _) s hInv).2 rfl hs⟩
      | getInitialPasswordAction =>
        simp only [run]
        constructor
        · intro hh
          rw [on_get_initial_password_action_st] at hh
          rw [on_get_initial_password_action_installed]
          exact hInv hh
        · intro _ hs
          rw [on_get_initial_password_action_st]
          exact hs
    | chain reg =>
      simp only [run]
      cases reg with
      | true =>
        have h1 := ih (.dbConfigChanged true) s hInv
        have h2 := ih (.uninitialised true) (run env fuel (.dbConfigChanged true) s).1 h1.1
        exact ⟨by simpa using h2.1, fun _ hs => by simpa using h2.2 rfl (h1.2 rfl hs)⟩
      | false =>
        have h1 := ih (.dbConfigChanged false) s hInv
        exact ⟨by simpa using h1.1, fun _ hs => by simpa using h1.2 rfl hs⟩
    | dbConfigChanged reg =>
      simp only [run]
      by_cases hem : on_database_config_changed_emits env s = true
      · have h := ih (.databaseChanged reg (some env.cfg.db_host) (some env.cfg.db_name)
          (some env.cfg.db_user) (some env.cfg.db_password)) s hInv
        exact ⟨by simpa [hem] using h.1, fun _ hs => by simpa [hem] using h.2 rfl hs⟩
      · exact ⟨by simpa [hem] using hInv, fun _ hs => by simpa [hem] using hs⟩
    | databaseChanged reg h d u p =>
      simp only [run]
      have hInv2 : Inv (dbChangedUpdate env h d u p s) := by
        intro hh
        rw [dbChangedUpdate_ld_installed]
        exact hInv hh
      have hh := ih (.chain reg) (dbChangedUpdate env h d u p s) hInv2
      exact ⟨hh.1, fun _ hs => hh.2 rfl hs⟩
    | dbRelCreated reg =>
      simp only [run]
      have hInv2 : Inv (dbRelCreatedUpdate s) := fun hh => hInv hh
      have hh := ih (.chain reg) (dbRelCreatedUpdate s) hInv2
      exact ⟨hh.1, fun _ hs => hh.2 rfl hs⟩
    | dbRelBroken reg =>
      simp only [run]
      have hInv2 : Inv (dbRelBrokenUpdate s) := fun hh => hInv hh
      have hh := ih (.chain reg) (dbRelBrokenUpdate s) hInv2
      exact ⟨hh.1, fun _ hs => hh.2 rfl hs⟩
    | ingressChanged reg =>
      simp only [run]
      have hInv2 : Inv (ingressChangedUpdate s) := fun hh => hInv hh
      have hh := ih (.chain reg) (ingressChangedUpdate s) hInv2
      exact ⟨hh.1, fun _ hs => hh.2 rfl hs⟩
    | leaderElected reg =>
      simp only [run]
      have hInv2 : Inv (leaderElectedUpdate env s) := by
        intro hh
        rw [leaderElectedUpdate_installed] at hh
        rw [leaderElectedUpdate_ld_installed]
        exact hInv hh
      have hh := ih (.chain reg) (leaderElectedUpdate env s) hInv2
      constructor
      · exact hh.1
      · intro _ hs
        refine hh.2 rfl ?_
        rw [leaderElectedUpdate_installed]
        exact hs
    | uninitialised reg =>
      simp only [run]
      have hsyncInv : Inv (syncFromLeader env s) := by
        intro hh
        by_cases hL : env.isLeader = true
        · simp only [syncFromLeader, hL, if_true] at hh ⊢
          exact hInv hh
        · simp only [syncFromLeader, if_neg hL] at hh ⊢
          exact hh
      have hsync_true : s.st.installed_successfully = true →
          (syncFromLeader env s).st.installed_successfully = true := by
        intro hs
        by_cases hL : env.isLeader = true
        · simpa [syncFromLeader, hL] using hs
        · simp only [syncFromLeader, if_neg hL]
          simpa using hInv hs
      split
      · exact ⟨hsyncInv, fun _ hs => hsync_true hs⟩
      · rename_i hni
        split
        · exact ⟨hsyncInv, fun _ hs => hsync_true hs⟩
        · split
          · have hmInv : Inv (markAttempted (syncFromLeader env s)) := fun hh => hsyncInv hh
            cases reg with
            | true =>
              have h := ih (.initialSetup true) (markAttempted (syncFromLeader env s)) hmInv
              exact ⟨by simpa using h.1, fun _ hs => absurd (hsync_true hs) hni⟩
            | false =>
              exact ⟨fun hh => hmInv hh, fun _ hs => absurd (hsync_true hs) hni⟩
          · exact ⟨hsyncInv, fun _ hs => hsync_true hs⟩
    | initialSetup reg =>
      simp only [run]
      have hI : Inv (installResult env (run env fuel (.chain reg) s).1) := installResult_Inv env _
      constructor
      · by_cases hok : env.firstInstallOk = true
        · have h2 := ih (.chain reg) (installResult env (run env fuel (.chain reg) s).1) hI
          simpa [hok] using h2.1
        · simpa [hok] using hI
      · intro habs
        simp [Call.isSetup] at habs

/-- Every reachable unit state satisfies the coupling invariant. -/
theorem reachable_Inv (s : Sys) (h : Reachable s) : Inv s := by
  induction h with
  | init c =>
    intro hh
    simp [initSys, initState] at hh
  | step fuel env e h ih => exact (run_Inv_mono env fuel (.event e) _ ih).1

/-- Once the invariant holds and the flag is set, any event trace keeps it
set. -/
theorem runEvents_installed_mono :
    ∀ (evs : List (Nat × Env × Event)) (s : Sys), Inv s →
      s.st.installed_successfully = true →
      (runEvents evs s).st.installed_successfully = true := by
  intro evs
  induction evs with
  | nil => exact fun s _ h => h
  | cons x rest ih =>
    intro s hInv hs
    obtain ⟨fuel, env, e⟩ := x
    have h := run_Inv_mono env fuel (.event e) s hInv
    exact ih _ h.1 (h.2 rfl hs)

/-! ## No handler re-emits the begin-install signal once an attempt is
marked -/

theorem run_noemit (env : Env) :
    ∀ fuel c s, Flag.attempted ∈ s.st.install_state → (run env fuel c s).2 = 0 := by
  intro fuel
  induction fuel with
  | zero => intro c s _; rfl
  | succ fuel ih =>
    have hkeep : ∀ (c' : Call) (s' : Sys), Flag.attempted ∈ s'.st.install_state →
        Flag.attempted ∈ (run env fuel c' s').1.st.install_state :=
      fun c' s' h => install_state_grows env fuel c' s' h
    intro c s hmem
    cases c with
    | event e =>
      cases e <;> simp only [run] <;> first
        | rfl
        | exact ih _ s hmem
    | chain reg =>
      simp only [run]
      cases reg with
      | true =>
        have h1 := ih (.dbConfigChanged true) s hmem
        have h2 := ih (.uninitialised true) _ (hkeep (.dbConfigChanged true) s hmem)
        simp [h1, h2]
      | false => simpa using ih (.dbConfigChanged false) s hmem
    | dbConfigChanged reg =>
      simp only [run]
      by_cases hem : on_database_config_changed_emits env s = true
      · simpa [hem] using ih (.databaseChanged reg (some env.cfg.db_host) (some env.cfg.db_name)
          (some env.cfg.db_user) (some env.cfg.db_password)) s hmem
      · simp [hem]
    | databaseChanged reg h d u p =>
      simp only [run]
      exact ih (.chain reg) _ (Finset.mem_insert_of_mem hmem)
    | dbRelCreated reg =>
      simp only [run]
      exact ih (.chain reg) _ hmem
    | dbRelBroken reg =>
      simp only [run]
      exact ih (.chain reg) _ hmem
    | ingressChanged reg =>
      simp only [run]
      exact ih (.chain reg) _ (Finset.mem_insert_of_mem hmem)
    | leaderElected reg =>
      simp only [run]
      exact ih (.chain reg) _ (leaderElectedUpdate_install_state env s hmem)
    | uninitialised reg =>
      simp only [run]
      split
      · rfl
      · split
        · rfl
        · split
          · rename_i hready
            exfalso
            rw [syncFromLeader_install_state] at hready
            rw [hready] at hmem
            exact absurd hmem (by decide)
          · rfl
    | initialSetup reg =>
      simp only [run]
      have h1 := ih (.chain reg) s hmem
      have hmem2 : Flag.attempted ∈
          (installResult env (run env fuel (.chain reg) s).1).st.install_state := by
        rw [installResult_install_state]
        exact hkeep (.chain reg) s hmem
      by_cases hok : env.firstInstallOk = true
      · have h2 := ih (.chain reg) _ hmem2
        simp [hok, h1, h2]
      · simp [hok, h1]

/-- When the state's installed flag — both the local one and, on a follower,
the replicated one the handler re-reads — is false, the leader-data sync of
src/charm.py:269-271 leaves the state unchanged. -/
theorem syncFromLeader_eq_self (env : Env) (s : Sys)
    (h1 : s.st.installed_successfully = false)
    (h2 : env.isLeader = false → s.ld.installed = false) :
    syncFromLeader env s = s := by
  by_cases hL : env.isLeader = true
  · simp [syncFromLeader, hL]
  · have hld := h2 (by simpa using hL)
    simp only [syncFromLeader, if_neg hL]
    rw [hld, ← h1]

theorem first_time_ready_eq :
    first_time_ready = {Flag.leader, Flag.db, Flag.ingress} := by decide

/-! ## Concrete fixtures used by the witnesses -/

/-- A leader environment with empty configuration, a succeeding bootstrap
oracle and a constant random source. -/
def envW : Env where
  isLeader := true
  firstInstallOk := true
  cfg := {}
  gen := fun len _ => String.mk (List.replicate len 'a')

/-- A follower environment. -/
def envF : Env where
  isLeader := false
  firstInstallOk := false
  cfg := {}
  gen := fun _ _ => ""

/-- A state in which all three install prerequisites have fired. -/
def sysReady : Sys where
  st := { installed_successfully := false
          install_state := {Flag.leader, Flag.db, Flag.ingress}
          has_db_relation := true
          has_ingress_relation := true
          db_host := some "h"
          db_name := some "n"
          db_user := some "u"
          db_password := some "p"
          attempted_install := false }
  ld := {}
  seed := 0

/-- A state in which only the ingress prerequisite has fired. -/
def sysIngress : Sys where
  st := { installed_successfully := false
          install_state := {Flag.ingress}
          has_db_relation := false
          has_ingress_relation := true
          db_host := none
          db_name := none
          db_user := none
          db_password := none
          attempted_install := false }
  ld := {}
  seed := 0

/-- Leader election, credentials push, then ingress: the trace that drives a
fresh unit through the install gate. -/
def traceW : List (Nat × Env × Event) :=
  [(10, envW, .leaderElected),
   (10, envW, .databaseChanged (some "h") (some "n") (some "u") (some "p")),
   (10, envW, .ingressRelationChanged)]

/-- The reachable state after `traceW`: the unit has installed. -/
def sysInstalled : Sys := runEvents traceW (initSys {})

theorem sysInstalled_reachable : Reachable sysInstalled :=
  Reachable.step 10 envW .ingressRelationChanged
    (Reachable.step 10 envW (.databaseChanged (some "h") (some "n") (some "u") (some "p"))
      (Reachable.step 10 envW .leaderElected (Reachable.init {})))

/-! ## C1 -/

/-- C1: while the installed flag (as re-read by the handler, i.e. the local
flag on a leader and the replicated flag on a follower) is false,
`on_wordpress_uninitialised` emits the one-time begin-install signal exactly
once if and only if the install set equals `{"leader","db","ingress"}`; when
the set equals `{"attempted","ingress","db","leader"}` nothing happens at
all; and on firing, `"attempted"` is added to the set. -/
theorem install_gate_exact (fuel : Nat) (env : Env) (reg : Bool) (s : Sys)
    (h1 : s.st.installed_successfully = false)
    (h2 : env.isLeader = false → s.ld.installed = false) :
    ((run env (fuel + 1) (.uninitialised reg) s).2 = 1 ↔
      s.st.install_state = {Flag.leader, Flag.db, Flag.ingress}) ∧
    (s.st.install_state = {Flag.attempted, Flag.ingress, Flag.db, Flag.leader} →
      run env (fuel + 1) (.uninitialised reg) s = (s, 0)) ∧
    (s.st.install_state = {Flag.leader, Flag.db, Flag.ingress} →
      Flag.attempted ∈ (run env (fuel + 1) (.uninitialised reg) s).1.st.install_state) := by
  have hs := syncFromLeader_eq_self env s h1 h2
  simp only [run, hs, h1]
  rw [← first_time_ready_eq]
  by_cases hrun : s.st.install_state = install_running
  · have hne : ¬s.st.install_state = first_time_ready := by
      rw [hrun]; decide
    simp [hrun, hne, install_running]
    decide
  · simp only [if_neg hrun, Bool.false_eq_true, if_false]
    by_cases hrdy : s.st.install_state = first_time_ready
    · have hmemA : Flag.attempted ∈ (markAttempted s).st.install_state :=
        Finset.mem_insert_self _ _
      cases reg with
      | true =>
        have hz := run_noemit env fuel (.initialSetup true) (markAttempted s) hmemA
        have hmem := install_state_grows env fuel (.initialSetup true) (markAttempted s) hmemA
        simp [hrdy, hz, hmem]
        decide
      | false =>
        simp [hrdy]
        exact ⟨by decide, hmemA⟩
    · have hni : ¬s.st.install_state = install_running := hrun
      simp [hrdy, install_running, hni]

/-- C1 witness: the theorem evaluated on an all-prerequisites state under a
leader environment. -/
theorem install_gate_exact_witness :
    ((run envW 3 (.uninitialised true) sysReady).2 = 1 ↔
      sysReady.st.install_state = {Flag.leader, Flag.db, Flag.ingress}) ∧
    (sysReady.st.install_state = {Flag.attempted, Flag.ingress, Flag.db, Flag.leader} →
      run envW 3 (.uninitialised true) sysReady = (sysReady, 0)) ∧
    (sysReady.st.install_state = {Flag.leader, Flag.db, Flag.ingress} →
      Flag.attempted ∈ (run envW 3 (.uninitialised true) sysReady).1.st.install_state) :=
  install_gate_exact 2 envW true sysReady (by decide) (by decide)

/-! ## C2 -/

/-- C2: the installed flag is monotonic — from any reachable state in which
`installed_successfully` is true, no further event trace (any fuels,
environments, leadership values and event payloads) ever resets it to
false. -/
theorem installed_monotonic (s : Sys) (hreach : Reachable s)
    (hinst : s.st.installed_successfully = true) (evs : List (Nat × Env × Event)) :
    (runEvents evs s).st.installed_successfully = true :=
  runEvents_installed_mono evs s (reachable_Inv s hreach) hinst

/-- C2 witness: the installed state reached by `traceW` stays installed
through a further relation-breaking and config-changed trace. -/
theorem installed_monotonic_witness :
    (runEvents [(5, envW, .dbRelationBroken), (5, envF, .configChanged),
      (5, envW, .ingressRelationBroken)] sysInstalled).st.installed_successfully = true :=
  installed_monotonic sysInstalled sysInstalled_reachable (by decide) _

/-! ## C4 -/

/-- C4: while installed_successfully is false, the install set only grows —
for every dispatched event the set after handling is a superset of the set
before, so no element is ever removed before install completes.  The one
method that would remove a flag, `on_ingress_relation_broken`
(src/charm.py:447-453), is registered for no event (src/charm.py:93-133
observes only ingress_relation_changed and ingress_relation_created), so an
ingress-relation-broken event invokes no handler and every handler that
actually runs only inserts. -/
theorem install_state_only_grows (fuel : Nat) (env : Env) (e : Event) (s : Sys)
    (_hinst : s.st.installed_successfully = false) :
    s.st.install_state ⊆ (run env fuel (.event e) s).1.st.install_state :=
  install_state_grows env fuel (.event e) s

/-- C4 witness: growth evaluated on a concrete not-yet-installed state for
the ingress-relation-broken event (an unobserved, stored-state no-op). -/
theorem install_state_only_grows_witness :
    sysIngress.st.install_state ⊆
      (run envW 5 (.event .ingressRelationBroken) sysIngress).1.st.install_state :=
  install_state_only_grows 5 envW .ingressRelationBroken sysIngress (by decide)

/-! ## C5 -/

/-- A configuration repeating exactly the credentials stored in `sys5`. -/
def cfg5 : Config :=
  { db_host := "h", db_name := "n", db_user := "u", db_password := "p" }

/-- A leader environment whose static configuration is `cfg5`. -/
def env5 : Env := { envW with cfg := cfg5 }

/-- A relation-less state already storing exactly the `cfg5` credentials. -/
def sys5 : Sys where
  st := { installed_successfully := false
          install_state := ∅
          has_db_relation := false
          has_ingress_relation := false
          db_host := some "h"
          db_name := some "n"
          db_user := some "u"
          db_password := some "p"
          attempted_install := false }
  ld := {}
  seed := 0

/-- C5 (code bug): with no db relation and stored credentials identical to
the incoming static `db_*` configuration, `on_database_config_changed`
still emits the static-database-changed signal — `new_db_data =
\x7bdb_config.values()\x7d` holds the `dict_values` object rather than the four
values, so the computed set difference is never empty — and the emitted
signal's `on_database_changed` flips `has_db_relation` on. -/
theorem static_database_changed_emitted_on_identical :
    (sys5.st.db_host = some cfg5.db_host ∧ sys5.st.db_name = some cfg5.db_name ∧
     sys5.st.db_user = some cfg5.db_user ∧ sys5.st.db_password = some cfg5.db_password ∧
     sys5.st.has_db_relation = false) ∧
    on_database_config_changed_emits env5 sys5 = true ∧
    (run env5 4 (.dbConfigChanged true) sys5).1.st.has_db_relation = true := by
  decide

/-! ## C9 -/

/-- C9: a follower running the get-initial-password action before the
leader has stored a password reads the missing replicated value as the
falsy empty string, fails with exactly "Initial password has not been set
yet." and leaves the state unchanged; no exception path exists. -/
theorem follower_initial_password_fails (env : Env) (s : Sys)
    (hL : env.isLeader = false) (hp : s.ld.initial_password = "") :
    on_get_initial_password_action env s =
      (s, .fail "Initial password has not been set yet.") := by
  simp [on_get_initial_password_action, get_initial_password, hp, hL]

/-- C9 witness: the action evaluated on a fresh follower unit. -/
theorem follower_initial_password_fails_witness :
    on_get_initial_password_action envF (initSys {}) =
      (initSys {}, .fail "Initial password has not been set yet.") :=
  follower_initial_password_fails envF (initSys {}) (by decide) (by decide)

/-! ## C3 -/

/-- The four stored credential fields are all null or all non-null. -/
def allOrNone (st : CharmState) : Prop :=
  (st.db_host = none ∧ st.db_name = none ∧ st.db_user = none ∧ st.db_password = none) ∨
  (st.db_host ≠ none ∧ st.db_name ≠ none ∧ st.db_user ≠ none ∧ st.db_password ≠ none)

/-- Whether an external database-changed payload is itself all-null or
all-non-null (the shape a live credentials push or a teardown produces). -/
def eventAtomic : Event → Bool
  | .databaseChanged h d u p =>
    (h.isNone && d.isNone && u.isNone && p.isNone) ||
    (h.isSome && d.isSome && u.isSome && p.isSome)
  | _ => true

/-- Lift of `eventAtomic` to calls. -/
def callAtomic : Call → Bool
  | .databaseChanged _ h d u p =>
    (h.isNone && d.isNone && u.isNone && p.isNone) ||
    (h.isSome && d.isSome && u.isSome && p.isSome)
  | .event e => eventAtomic e
  | _ => true

theorem leaderElectedUpdate_db (env : Env) (s : Sys) :
    (leaderElectedUpdate env s).st.db_host = s.st.db_host ∧
    (leaderElectedUpdate env s).st.db_name = s.st.db_name ∧
    (leaderElectedUpdate env s).st.db_user = s.st.db_user ∧
    (leaderElectedUpdate env s).st.db_password = s.st.db_password := by
  simp only [leaderElectedUpdate]
  split
  · split
    · refine ⟨?_, ?_, ?_, ?_⟩ <;> simp [generate_wordpress_secrets_st]
    · exact ⟨rfl, rfl, rfl, rfl⟩
  · exact ⟨rfl, rfl, rfl, rfl⟩

theorem installResult_db (env : Env) (s : Sys) :
    (installResult env s).st.db_host = s.st.db_host ∧
    (installResult env s).st.db_name = s.st.db_name ∧
    (installResult env s).st.db_user = s.st.db_user ∧
    (installResult env s).st.db_password = s.st.db_password := by
  simp only [installResult]
  split <;> (refine ⟨?_, ?_, ?_, ?_⟩ <;> simp [get_initial_password_st])

theorem allOrNone_congr {st st' : CharmState}
    (h1 : st'.db_host = st.db_host) (h2 : st'.db_name = st.db_name)
    (h3 : st'.db_user = st.db_user) (h4 : st'.db_password = st.db_password) :
    allOrNone st → allOrNone st' := by
  intro h
  unfold allOrNone at *
  rw [h1, h2, h3, h4]
  exact h

theorem run_allOrNone (env : Env) :
    ∀ fuel c s, callAtomic c = true → allOrNone s.st → allOrNone (run env fuel c s).1.st := by
  intro fuel
  induction fuel with
  | zero => intro c s _ h; exact h
  | succ fuel ih =>
    intro c s hc h
    cases c with
    | event e =>
      cases e with
      | configChanged => simp only [run]; exact ih (.chain _) s rfl h
      | pebbleReady => simp only [run]; exact h
      | dbRelationCreated => simp only [run]; exact ih (.dbRelCreated _) s rfl h
      | dbRelationBroken => simp only [run]; exact ih (.dbRelBroken _) s rfl h
      | databaseChanged hh dd uu pp =>
        simp only [run]
        exact ih (.databaseChanged _ hh dd uu pp) s hc h
      | ingressRelationCreated => simp only [run]; exact ih (.ingressChanged _) s rfl h
      | ingressRelationChanged => simp only [run]; exact ih (.ingressChanged _) s rfl h
      | ingressRelationBroken => simp only [run]; exact h
      | leaderElected => simp only [run]; exact ih (.leaderElected _) s rfl h
      | getInitialPasswordAction =>
        simp only [run]
        have hst := on_get_initial_password_action_st env s
        exact allOrNone_congr (by rw [hst]) (by rw [hst]) (by rw [hst]) (by rw [hst]) h
    | chain reg =>
      simp only [run]
      cases reg with
      | true =>
        have h1 := ih (.dbConfigChanged true) s rfl h
        have h2 := ih (.uninitialised true) _ rfl h1
        simpa using h2
      | false => simpa using ih (.dbConfigChanged false) s rfl h
    | dbConfigChanged reg =>
      simp only [run]
      by_cases hem : on_database_config_changed_emits env s = true
      · have hA : callAtomic (.databaseChanged reg (some env.cfg.db_host) (some env.cfg.db_name)
          (some env.cfg.db_user) (some env.cfg.db_password)) = true := by simp [callAtomic]
        simpa [hem] using ih _ s hA h
      · simpa [hem] using h
    | databaseChanged reg hh dd uu pp =>
      simp only [run]
      refine ih (.chain reg) _ rfl ?_
      have hq : (hh = none ∧ dd = none ∧ uu = none ∧ pp = none) ∨
          (hh ≠ none ∧ dd ≠ none ∧ uu ≠ none ∧ pp ≠ none) := by
        simpa [callAtomic, Option.isNone_iff_eq_none, Option.ne_none_iff_isSome,
          and_assoc] using hc
      exact hq
    | dbRelCreated reg =>
      simp only [run]
      exact ih (.chain reg) _ rfl (Or.inl ⟨rfl, rfl, rfl, rfl⟩)
    | dbRelBroken reg =>
      simp only [run]
      exact ih (.chain reg) _ rfl (Or.inl ⟨rfl, rfl, rfl, rfl⟩)
    | ingressChanged reg =>
      simp only [run]
      exact ih (.chain reg) _ rfl h
    | leaderElected reg =>
      simp only [run]
      refine ih (.chain reg) _ rfl ?_
      obtain ⟨e1, e2, e3, e4⟩ := leaderElectedUpdate_db env s
      exact allOrNone_congr e1 e2 e3 e4 h
    | uninitialised reg =>
      simp only [run]
      have hsync : allOrNone (syncFromLeader env s).st := by
        by_cases hL : env.isLeader = true
        · simpa [syncFromLeader, hL] using h
        · simp only [syncFromLeader, if_neg hL]
          exact h
      split
      · exact hsync
      · split
        · exact hsync
        · split
          · cases reg with
            | true =>
              simpa using ih (.initialSetup true) (markAttempted (syncFromLeader env s)) rfl hsync
            | false => exact hsync
          · exact hsync
    | initialSetup reg =>
      simp only [run]
      have h1 := ih (.chain reg) s rfl h
      have h2 : allOrNone (installResult env (run env fuel (.chain reg) s).1).st := by
        obtain ⟨e1, e2, e3, e4⟩ := installResult_db env (run env fuel (.chain reg) s).1
        exact allOrNone_congr e1 e2 e3 e4 h1
      by_cases hok : env.firstInstallOk = true
      · simpa [hok] using ih (.chain reg) _ rfl h2
      · simpa [hok] using h2

instance (st : CharmState) : Decidable (allOrNone st) := by
  unfold allOrNone
  infer_instance

/-- A static configuration that supplies all four db fields or none. -/
def cfgAtomic (c : Config) : Prop :=
  (c.db_host = "" ∧ c.db_name = "" ∧ c.db_user = "" ∧ c.db_password = "") ∨
  (c.db_host ≠ "" ∧ c.db_name ≠ "" ∧ c.db_user ≠ "" ∧ c.db_password ≠ "")

instance (c : Config) : Decidable (cfgAtomic c) := by
  unfold cfgAtomic
  infer_instance

theorem initSys_allOrNone (c : Config) (hc : cfgAtomic c) : allOrNone (initSys c).st := by
  rcases hc with ⟨h1, h2, h3, h4⟩ | ⟨h1, h2, h3, h4⟩
  · exact Or.inl ⟨by simp [initSys, initState, strOrNone, h1],
      by simp [initSys, initState, strOrNone, h2],
      by simp [initSys, initState, strOrNone, h3],
      by simp [initSys, initState, strOrNone, h4]⟩
  · exact Or.inr ⟨by simp [initSys, initState, strOrNone, h1],
      by simp [initSys, initState, strOrNone, h2],
      by simp [initSys, initState, strOrNone, h3],
      by simp [initSys, initState, strOrNone, h4]⟩

/-- C3 counterexample: initializing the stored state from a configuration
that sets `db_host` but leaves the other db fields blank
(src/charm.py:115-118, `c[k] or None` per field) produces a partial mix —
`db_host` non-null, the rest null — refuting the claim at initialization. -/
theorem credential_atomicity_cex : ¬ allOrNone (initSys { db_host := "h" }).st := by
  decide

/-- C3 amended: provided the initial static configuration supplies either
all four db fields or none, and every external database-changed payload is
itself all-null or all-non-null, every state reached by any event trace has
the four stored credential fields all null or all non-null. -/
theorem credential_atomicity_amended (c : Config) (hc : cfgAtomic c)
    (evs : List (Nat × Env × Event)) (hevs : ∀ x ∈ evs, eventAtomic x.2.2 = true) :
    allOrNone (runEvents evs (initSys c)).st := by
  have hstep : ∀ (l : List (Nat × Env × Event)) (s : Sys),
      (∀ x ∈ l, eventAtomic x.2.2 = true) → allOrNone s.st →
      allOrNone (runEvents l s).st := by
    intro l
    induction l with
    | nil => exact fun s _ h => h
    | cons x rest ihl =>
      intro s hl h
      obtain ⟨fuel, env, e⟩ := x
      refine ihl _ (fun y hy => hl y (List.mem_cons_of_mem _ hy)) ?_
      exact run_allOrNone env fuel (.event e) s (hl _ (List.mem_cons_self _ _)) h
  exact hstep evs (initSys c) hevs (initSys_allOrNone c hc)

/-- C3 amended witness: atomicity holds along a concrete
relation-created, credentials-push, relation-broken trace from an
all-fields static configuration. -/
theorem credential_atomicity_amended_witness :
    allOrNone (runEvents [(5, envW, .dbRelationCreated),
      (5, envW, .databaseChanged (some "h") (some "n") (some "u") (some "p")),
      (5, envW, .dbRelationBroken)] (initSys cfg5)).st :=
  credential_atomicity_amended cfg5 (by decide) _ (by decide)

/-! ## C6 -/

/-- C6: the validator's imperative flag accumulation equals the conjunction
of its checks — returning true exactly when the installed flag, the
initial-settings presence, the resolved db credentials, the required
non-blank fields and the additional-hostnames syntax all pass, so any one
failing check forces false irrespective of the others — and the
config-changed handler proceeds past its guard exactly when the validator
returns true. -/
theorem validator_aggregates_all_checks (env : Env) (s : Sys) :
    (is_valid_config env s = true ↔
      (s.st.installed_successfully = true ∧
       env.cfg.initial_settings ≠ "" ∧
       (dbConfigValues env s).all (fun x => !isFalsy x) = true ∧
       missingRequired env s = [] ∧
       (env.cfg.additional_hostnames ≠ "" →
         (juju_setting_to_list env.cfg.additional_hostnames).all reMatchHost = true))) ∧
    (on_config_changed_outcome env s = .applied ↔ is_valid_config env s = true) := by
  constructor
  · simp only [is_valid_config]
    by_cases hA : s.st.installed_successfully = false <;>
      by_cases hB : env.cfg.initial_settings = "" <;>
      by_cases hC : (dbConfigValues env s).all (fun x => !isFalsy x) = true <;>
      by_cases hD : (missingRequired env s).isEmpty = true <;>
      by_cases hE : env.cfg.additional_hostnames = "" <;>
      by_cases hF : (juju_setting_to_list env.cfg.additional_hostnames).all reMatchHost = true <;>
      simp_all [List.isEmpty_iff]
  · simp only [on_config_changed_outcome]
    split
    · simp_all
    · simp_all

/-- C6 witness: the aggregation equivalence evaluated on a fresh unit with
an empty configuration. -/
theorem validator_aggregates_all_checks_witness :
    (is_valid_config envW (initSys {}) = true ↔
      ((initSys {}).st.installed_successfully = true ∧
       envW.cfg.initial_settings ≠ "" ∧
       (dbConfigValues envW (initSys {})).all (fun x => !isFalsy x) = true ∧
       missingRequired envW (initSys {}) = [] ∧
       (envW.cfg.additional_hostnames ≠ "" →
         (juju_setting_to_list envW.cfg.additional_hostnames).all reMatchHost = true))) ∧
    (on_config_changed_outcome envW (initSys {}) = .applied ↔
      is_valid_config envW (initSys {}) = true) :=
  validator_aggregates_all_checks envW (initSys {})

/-! ## C7 -/

theorem juju_all_eq (ah : String) :
    (juju_setting_to_list ah).all reMatchHost = (splitChar ' ' ah.data).all reMatchHostL := by
  unfold juju_setting_to_list
  generalize splitChar ' ' ah.data = l
  induction l with
  | nil => rfl
  | cons a t ih => simp [ih, reMatchHost]

theorem string_data_nil (s : String) : s.data = [] ↔ s = "" := by
  constructor
  · intro h
    cases s
    simp_all
  · intro h
    subst h
    rfl

theorem additionalHostnamesCheck_true_iff (ah : String) (hne : ah ≠ "") :
    additionalHostnamesCheck ah = true ↔
      ∀ h ∈ juju_setting_to_list ah, reMatchHost h = true := by
  have hd : ah.data.isEmpty = false := by
    rw [List.isEmpty_eq_false]
    intro hcon
    exact hne ((string_data_nil ah).mp hcon)
  simp only [additionalHostnamesCheck, additionalHostnamesCheckL, hd, Bool.false_or]
  rw [← juju_all_eq]
  exact List.all_eq_true

theorem additionalHostnamesCheck_false_iff (ah : String) :
    additionalHostnamesCheck ah = false ↔
      (ah ≠ "" ∧ (juju_setting_to_list ah).all reMatchHost = false) := by
  simp only [additionalHostnamesCheck, additionalHostnamesCheckL, Bool.or_eq_false_iff]
  rw [juju_all_eq]
  constructor
  · rintro ⟨h1, h2⟩
    refine ⟨?_, h2⟩
    intro hcon
    subst hcon
    simp at h1
  · rintro ⟨h1, h2⟩
    refine ⟨?_, h2⟩
    rw [List.isEmpty_eq_false]
    intro hcon
    exact h1 ((string_data_nil ah).mp hcon)

/-- C7: the four example hostnames behave as claimed under the embedded
`^([a-z0-9]+(-[a-z0-9]+)*\.)+[a-z]\x7b2,\x7d$` match; for a non-empty setting the
hostname check passes exactly when every space-separated entry matches; and
a failing hostname check forces the whole configuration invalid. -/
theorem hostname_validation :
    reMatchHost "blog.example.com" = true ∧
    reMatchHost "a-b.example.io" = true ∧
    reMatchHost "Blog.Example.com" = false ∧
    reMatchHost "example" = false ∧
    (∀ ah : String, ah ≠ "" →
      (additionalHostnamesCheck ah = true ↔
        ∀ h ∈ juju_setting_to_list ah, reMatchHost h = true)) ∧
    (∀ (env : Env) (s : Sys),
      additionalHostnamesCheck env.cfg.additional_hostnames = false →
      is_valid_config env s = false) := by
  refine ⟨by decide, by decide, by decide, by decide, additionalHostnamesCheck_true_iff, ?_⟩
  intro env s hf
  obtain ⟨h1, h2⟩ := (additionalHostnamesCheck_false_iff _).mp hf
  simp [is_valid_config, h1, h2]

/-- An otherwise-empty configuration whose additional hostname lacks a
top-level domain. -/
def envBad : Env := { envW with cfg := { additional_hostnames := "example" } }

/-- C7 witness: the per-entry equivalence evaluated at "blog.example.com"
and the validator rejecting the TLD-less "example". -/
theorem hostname_validation_witness :
    (additionalHostnamesCheck "blog.example.com" = true ↔
      ∀ h ∈ juju_setting_to_list "blog.example.com", reMatchHost h = true) ∧
    is_valid_config envBad (initSys {}) = false :=
  ⟨hostname_validation.2.2.2.2.1 "blog.example.com" (by decide),
   hostname_validation.2.2.2.2.2 envBad (initSys {}) (by decide)⟩

/-! ## C10 -/

theorem reMatchHost_nil : reMatchHostL [] = false := by decide

/-- C10 counterexample: "a.com\n b.com" contains a non-space whitespace
character (a newline) between two valid hostnames, yet the configuration is
accepted — splitting on the single space yields the entry "a.com\n", and
Python's `re.match` with a final `$` tolerates one trailing newline. -/
theorem split_on_space_cex :
    reMatchHost "a.com" = true ∧ reMatchHost "b.com" = true ∧
    additionalHostnamesCheck "a.com\n b.com" = true := by decide

/-- C10 amended: splitting is on the single space character only, so any
setting with a leading space, a trailing space or two consecutive spaces
produces an empty entry that fails the pattern and the whole configuration
is rejected even when every actual hostname in it is valid, and a tab
between two valid hostnames is likewise rejected; however an entry may
carry a single trailing newline (accepted by the pattern's `$`), so not
every non-space whitespace delimiter causes rejection. -/
theorem split_on_space_amended :
    (∀ x : List Char, additionalHostnamesCheckL (' ' :: x) = false) ∧
    (∀ x : List Char, additionalHostnamesCheckL (x ++ [' ']) = false) ∧
    (∀ x y : List Char, additionalHostnamesCheckL (x ++ ' ' :: ' ' :: y) = false) ∧
    additionalHostnamesCheck "a.com\tb.com" = false := by
  refine ⟨?_, ?_, ?_, by decide⟩
  · intro x
    simp [additionalHostnamesCheckL, splitChar, reMatchHost_nil]
  · intro x
    simp [additionalHostnamesCheckL, splitChar_append, splitChar, reMatchHost_nil]
  · intro x y
    simp [additionalHostnamesCheckL, splitChar_append, splitChar, reMatchHost_nil]

/-! ## C8 -/

/-- One pass of `_generate_wordpress_secrets`: truthy stored values are
never overwritten, every processed name ends up truthy, the returned map
lists the final stored value of each name in order, and every returned
value is either the previously stored one or a fresh 64-character string. -/
theorem gws_spec (env : Env) (hgen : ∀ sd, (env.gen 64 sd).length = 64) :
    ∀ (names : List String) (s : Sys),
      (∀ k, isFalsy (s.ld.secrets k) = false →
        (generate_wordpress_secrets env names s).1.ld.secrets k = s.ld.secrets k) ∧
      (∀ n ∈ names,
        isFalsy ((generate_wordpress_secrets env names s).1.ld.secrets n) = false) ∧
      ((generate_wordpress_secrets env names s).2 =
        names.map (fun n =>
          (n, ((generate_wordpress_secrets env names s).1.ld.secrets n).getD ""))) ∧
      (∀ p ∈ (generate_wordpress_secrets env names s).2,
        s.ld.secrets p.1 = some p.2 ∨ p.2.length = 64) := by
  intro names
  induction names with
  | nil =>
    intro s
    exact ⟨fun k _ => rfl, by simp, rfl, by simp [generate_wordpress_secrets]⟩
  | cons n rest ih =>
    intro s
    by_cases hfn : isFalsy (s.ld.secrets n) = true
    · -- the stored value is missing or falsy: a fresh value is stored
      have hvne : env.gen 64 s.seed ≠ "" := by
        intro hcon
        have hl := hgen s.seed
        rw [hcon] at hl
        simp at hl
      have hrun : generate_wordpress_secrets env (n :: rest) s =
          ((generate_wordpress_secrets env rest
              { s with
                ld := { s.ld with
                        secrets := fun k => if k = n then some (env.gen 64 s.seed)
                                   else s.ld.secrets k }
                seed := s.seed + 1 }).1,
            (n, some (env.gen 64 s.seed) |>.getD "") ::
            (generate_wordpress_secrets env rest
              { s with
                ld := { s.ld with
                        secrets := fun k => if k = n then some (env.gen 64 s.seed)
                                   else s.ld.secrets k }
                seed := s.seed + 1 }).2) := by
        simp [generate_wordpress_secrets, hfn]
      obtain ⟨ihp, iht, ihm, iho⟩ := ih
        { s with
          ld := { s.ld with
                  secrets := fun k => if k = n then some (env.gen 64 s.seed)
                             else s.ld.secrets k }
          seed := s.seed + 1 }
      have hU_truthy : ∀ k, isFalsy (s.ld.secrets k) = false →
          (if k = n then some (env.gen 64 s.seed) else s.ld.secrets k) = s.ld.secrets k := by
        intro k hk
        by_cases hkn : k = n
        · rw [hkn] at hk
          rw [hk] at hfn
          exact absurd hfn (by simp)
        · simp [hkn]
      refine ⟨?_, ?_, ?_, ?_⟩
      · intro k hk
        rw [hrun]
        have := ihp k (by simpa [hU_truthy k hk] using hk)
        simpa [hU_truthy k hk] using this
      · intro m hm
        rw [hrun]
        rcases List.mem_cons.mp hm with hmn | hmr
        · subst hmn
          have hUm : isFalsy ((if m = m then some (env.gen 64 s.seed)
              else s.ld.secrets m)) = false := by
            simp [isFalsy, hvne]
          have := ihp m hUm
          rw [this]
          simpa using hUm
        · exact iht m hmr
      · rw [hrun]
        simp only [List.map_cons, List.cons.injEq]
        constructor
        · have hUm : isFalsy ((if n = n then some (env.gen 64 s.seed)
              else s.ld.secrets n)) = false := by
            simp [isFalsy, hvne]
          have := ihp n hUm
          rw [this]
          simp
        · exact ihm
      · intro p hp
        rw [hrun] at hp
        rcases List.mem_cons.mp hp with hpn | hpr
        · right
          rw [hpn]
          simpa using hgen s.seed
        · rcases iho p hpr with hleft | hright
          · by_cases hpn : p.1 = n
            · right
              rw [hpn] at hleft
              simp only [if_pos rfl] at hleft
              have : p.2 = env.gen 64 s.seed := by
                exact (Option.some.injEq _ _ ▸ hleft).symm ▸ rfl
              rw [this]
              exact hgen s.seed
            · left
              simpa [hpn] using hleft
          · exact Or.inr hright
    · -- the stored value is truthy: nothing is written
      have hfn' : isFalsy (s.ld.secrets n) = false := by
        cases h : isFalsy (s.ld.secrets n)
        · rfl
        · exact absurd h hfn
      have hrun : generate_wordpress_secrets env (n :: rest) s =
          ((generate_wordpress_secrets env rest s).1,
            (n, (s.ld.secrets n).getD "") ::
              (generate_wordpress_secrets env rest s).2) := by
        simp [generate_wordpress_secrets, hfn]
      obtain ⟨ihp, iht, ihm, iho⟩ := ih s
      refine ⟨?_, ?_, ?_, ?_⟩
      · intro k hk
        rw [hrun]
        exact ihp k hk
      · intro m hm
        rw [hrun]
        rcases List.mem_cons.mp hm with hmn | hmr
        · subst hmn
          rw [ihp m hfn']
          exact hfn'
        · exact iht m hmr
      · rw [hrun]
        simp only [List.map_cons, List.cons.injEq]
        exact ⟨by rw [ihp n hfn'], ihm⟩
      · intro p hp
        rw [hrun] at hp
        rcases List.mem_cons.mp hp with hpn | hpr
        · left
          rw [hpn]
          simp only
          cases hsn : s.ld.secrets n with
          | none => rw [hsn] at hfn'; simp [isFalsy] at hfn'
          | some v => simp
        · exact iho p hpr

/-- A pass over names whose stored values are all truthy writes nothing and
returns the stored values. -/
theorem gws_noop (env : Env) :
    ∀ (names : List String) (s : Sys),
      (∀ n ∈ names, isFalsy (s.ld.secrets n) = false) →
      generate_wordpress_secrets env names s =
        (s, names.map (fun n => (n, (s.ld.secrets n).getD ""))) := by
  intro names
  induction names with
  | nil => intro s _; rfl
  | cons n rest ih =>
    intro s hall
    have hn := hall n (List.mem_cons_self _ _)
    simp [generate_wordpress_secrets, hn,
      ih s (fun m hm => hall m (List.mem_cons_of_mem _ hm))]

/-- C8: secret generation is idempotent — a second invocation with the same
names changes nothing and returns the identical map — and every returned
value is either the previously stored value (never regenerated) or a
freshly generated 64-character string for a missing/falsy name. -/
theorem ensure_secrets_idempotent (env : Env)
    (hgen : ∀ sd, (env.gen 64 sd).length = 64) (names : List String) (s : Sys) :
    generate_wordpress_secrets env names (generate_wordpress_secrets env names s).1 =
      generate_wordpress_secrets env names s ∧
    ∀ p ∈ (generate_wordpress_secrets env names s).2,
      s.ld.secrets p.1 = some p.2 ∨ p.2.length = 64 := by
  obtain ⟨hpres, htruthy, hmap, horig⟩ := gws_spec env hgen names s
  refine ⟨?_, horig⟩
  rw [gws_noop env names (generate_wordpress_secrets env names s).1 htruthy, ← hmap]

/-- C8 witness: the idempotence and value contract evaluated on the
WordPress secret names from a fresh leader store. -/
theorem ensure_secrets_idempotent_witness :
    generate_wordpress_secrets envW WORDPRESS_SECRETS
        (generate_wordpress_secrets envW WORDPRESS_SECRETS (initSys {})).1 =
      generate_wordpress_secrets envW WORDPRESS_SECRETS (initSys {}) ∧
    ∀ p ∈ (generate_wordpress_secrets envW WORDPRESS_SECRETS (initSys {})).2,
      (initSys {}).ld.secrets p.1 = some p.2 ∨ p.2.length = 64 :=
  ensure_secrets_idempotent envW (fun _ => rfl) WORDPRESS_SECRETS (initSys {})

end WordpressCharm
